import Mathlib

/-!
Shallow embedding of the Nexus MIDI firmware core (cycfi nexus-midi):
the wear-leveled flash byte store, the deferred-commit scheduler, the
debounce / edge / repeat-button chain, the leaky-integrator lowpass
filter, the hysteresis gate, and the program-change / bank-select
selectors.  Each definition is translated from the C++ source; the
source file and function are cited at each definition.  The target is
an MSP430G2553 (16-bit int, 32-bit long), so int is modeled as 16-bit
two's complement where its width matters, int32_t/uint32_t as 32-bit,
and int32_t arithmetic that can never overflow in the value ranges at
hand is modeled over Int.  C++ integer division on int32_t truncates
toward zero, which is Int.tdiv.
-/

namespace Nexus

/-! ## FlashManager (flash_manager.cpp, in src/unnamed/part_014)

A 64-byte flash segment is a list of 64 byte values; 0xFF is the
erased sentinel.  FlashManager::write returns void in the source; here
write returns the new segment contents paired with the number of
whole-segment erase operations the call performed (0 or 1), which the
source makes observable through Flash.erase. -/

namespace FlashManager

/-- The erased byte value 0xFF. -/
def sentinel : Nat := 255

/-- FlashManager::find_free: scan from index 0 for the first byte equal
to 0xFF; none when the segment is full. -/
def find_free : List Nat → Option Nat
  | [] => none
  | b :: rest => if b = sentinel then some 0 else Option.map (fun i => i + 1) (find_free rest)

/-- FlashManager::empty: the first byte equals 0xFF. -/
def empty (seg : List Nat) : Bool := seg.getD 0 0 == sentinel

/-- FlashManager::read: 0xFF when empty; otherwise the byte just before
the first erased byte, or the last byte when the segment is full. -/
def read (seg : List Nat) : Nat :=
  if empty seg then sentinel
  else
    match find_free seg with
    | some p => seg.getD (p - 1) 0
    | none => seg.getD 63 0

/-- FlashManager::erase: every byte of the segment reset to 0xFF. -/
def erase : List Nat := List.replicate 64 sentinel

/-- FlashManager::write: program the first free byte; when the segment
is full, erase the whole segment first and program index 0.  The second
component counts erase operations performed by this call. -/
def write (seg : List Nat) (v : Nat) : List Nat × Nat :=
  match find_free seg with
  | some p => (seg.set p v, 0)
  | none => (erase.set 0 v, 1)

/-- A sequence of writes, accumulating the total erase count. -/
def writeSeq (seg : List Nat) : List Nat → List Nat × Nat
  | [] => (seg, 0)
  | v :: vs =>
    let r := write seg v
    let rest := writeSeq r.1 vs
    (rest.1, r.2 + rest.2)

/-- FlashManager::write with the flash driver's possible hardware
failure made explicit: when the program (or erase) operation fails the
segment keeps its prior content.  The source's Flash.write/Flash.erase
and FlashManager::write all return void, so no status is produced. -/
def writeFail (seg : List Nat) (v : Nat) (fail : Bool) : List Nat :=
  match find_free seg with
  | some p => if fail then seg else seg.set p v
  | none => if fail then seg else erase.set 0 v

/-- Well-formed segment: a prefix of programmed (non-0xFF) bytes
followed by erased bytes, 64 bytes in total.  This is the invariant the
append-only write discipline maintains. -/
def WF (seg : List Nat) : Prop :=
  ∃ pre m, (∀ x ∈ pre, x ≠ sentinel) ∧ seg = pre ++ List.replicate m sentinel ∧
    pre.length + m = 64

end FlashManager

/-! ## Deferred commit scheduler (persistent_storage.cpp)

save_delay_start_time is an int32_t (-1 when nothing is pending),
save_delay a const uint32_t = 3000, and millis() an unsigned 32-bit
counter.  reset_save_delay stores millis() into the int32_t;
should_save computes millis() > save_delay_start_time + save_delay,
where the int32_t converts to uint32_t for the addition. -/

namespace Storage

/-- 3000 ms delay before saving to flash. -/
def save_delay : Nat := 3000

/-- Reinterpret an unsigned 32-bit value (a Nat, reduced mod 2^32) as a
two's-complement int32_t. -/
def toInt32 (n : Nat) : Int :=
  (n % 4294967296 : Nat) - (if n % 4294967296 < 2147483648 then 0 else 4294967296)

/-- Reinterpret an int32_t value as uint32_t (conversion applied by the
usual arithmetic conversions in save_delay_start_time + save_delay). -/
def toUInt32 (z : Int) : Nat := (z % 4294967296).toNat

/-- reset_save_delay: save_delay_start_time = millis(). -/
def reset_save_delay (now : Nat) : Int := toInt32 now

/-- should_save: (save_delay_start_time != -1) &&
(millis() > save_delay_start_time + save_delay), computed in uint32. -/
def should_save (save_delay_start_time : Int) (now : Nat) : Bool :=
  decide (save_delay_start_time ≠ -1) &&
    decide (now % 4294967296 > (toUInt32 save_delay_start_time + save_delay) % 4294967296)

/-- mark_saved: save_delay_start_time = -1. -/
def mark_saved : Int := -1

end Storage

/-! ## util.hpp: debouncer, edge detector, repeat button

All instances in the firmware use the default template arguments:
samples = 10, delay_ = 1000, rate = 100.  The build defines
NEXUS_ENABLE_IMMEDIATE_DEBOUNCE (feature_config.hpp), selecting the
immediate-press policy; the standard policy is the #else branch.
repeat_button stores start_time and delay in C ints, which are 16-bit
on the MSP430 target, and reads millis() into such an int. -/

namespace Util

/-- debouncer::operator(): one debounce step.  State is (counter,
result).  immediate selects the NEXUS_ENABLE_IMMEDIATE_DEBOUNCE branch;
the standard branch increments the counter toward samples and sets the
result true only on a reading made with counter already at samples.
Release always decrements and sets the result false only on a reading
made with counter already at 0. -/
def debounce_step (immediate : Bool) (samples : Nat) (st : Nat × Bool) (sw : Bool) :
    Nat × Bool :=
  if sw then
    if immediate then (samples, true)
    else if st.1 = samples then (st.1, true)
    else (st.1 + 1, st.2)
  else
    if st.1 = 0 then (st.1, false)
    else (st.1 - 1, st.2)

/-- Feeding a whole list of raw readings to a debouncer. -/
def debounce_run (immediate : Bool) (samples : Nat) (st : Nat × Bool) (l : List Bool) :
    Nat × Bool :=
  l.foldl (debounce_step immediate samples) st

/-- Reduce an integer to 16-bit two's complement, the behavior of the
MSP430 C int (overflowing int arithmetic and uint32-to-int conversion
both wrap). -/
def wrap16 (z : Int) : Int :=
  (z % 65536) - (if z % 65536 < 32768 then 0 else 65536)

/-- repeat_button state: the inherited debouncer counter/result, the
edge detector's previous state, and start_time/delay (C ints;
start_time is -1 when no press is active). -/
structure RepeatButton where
  counter : Nat
  result : Bool
  prev : Bool
  start_time : Int
  delay : Int
deriving DecidableEq, Repr

/-- repeat_button::operator() with the immediate-debounce policy active
(the firmware's configuration): debounce, detect the edge, then fire on
a rising edge, reset on a falling edge, idle when start_time is the -1
sentinel, and otherwise fire when now > start_time + delay in 16-bit
int arithmetic, taking now = (int)millis(). -/
def repeat_button_step (st : RepeatButton) (sw : Bool) (now : Nat) : RepeatButton × Bool :=
  let d := debounce_step true 10 (st.counter, st.result) sw
  if d.2 ≠ st.prev then
    if d.2 then
      ({ counter := d.1, result := d.2, prev := d.2, start_time := wrap16 now, delay := 1000 }, true)
    else
      ({ counter := d.1, result := d.2, prev := d.2, start_time := -1, delay := st.delay }, false)
  else if st.start_time = -1 then
    ({ st with counter := d.1, result := d.2 }, false)
  else if wrap16 now > wrap16 (st.start_time + st.delay) then
    ({ st with counter := d.1, result := d.2, start_time := wrap16 now, delay := 100 }, true)
  else
    ({ st with counter := d.1, result := d.2 }, false)

/-- Run a repeat_button over a list of (raw switch, millis) samples,
collecting the outputs. -/
def repeat_button_run (st : RepeatButton) : List (Bool × Nat) → RepeatButton × List Bool
  | [] => (st, [])
  | (sw, now) :: rest =>
    let r := repeat_button_step st sw now
    let rr := repeat_button_run r.1 rest
    (rr.1, r.2 :: rr.2)

/-- lowpass::operator(): y += s - y / k, on int32_t with truncating
division; returns the new accumulator (the output is y / k). -/
def lowpass_step (k y s : Int) : Int := y + s - Int.tdiv y k

/-- The accumulator after n samples of the constant input s. -/
def lowpass_iter (k s y : Int) : Nat → Int
  | 0 => y
  | n + 1 => lowpass_step k (lowpass_iter k s y n) s

/-- gate::operator(): fire (and take s as the new reference) exactly
when s lies strictly outside [val - window, val + window].  The
firmware instantiates gate with T = int32_t, so on the MSP430 both
comparisons are signed. -/
def gate_step (window : Nat) (val s : Int) : Int × Bool :=
  if s < val - window ∨ s > val + window then (s, true) else (val, false)

/-- Feeding a list of samples to a gate, collecting the fire flags. -/
def gate_run (window : Nat) (val : Int) : List Int → Int × List Bool
  | [] => (val, [])
  | s :: rest =>
    let r := gate_step window val s
    let rr := gate_run window r.1 rest
    (rr.1, r.2 :: rr.2)

end Util

/-! ## Selectors (program_change_controller.cpp, bank_select_controller.cpp,
controller_factory.cpp)

ProgramChangeController keeps curr and base as int16_t;
BankSelectController keeps curr as uint8_t.  The button entry points
run their repeat_button and, when it fires and the range guard passes,
step the value, call reset_save_delay and re-transmit.  Here the
repeat_button outcome is the Bool input of each operation. -/

namespace Controllers

/-- max(min(x, 127), 0), the clamp used by ProgramChangeController. -/
def clamp127 (x : Int) : Int := max (min x 127) 0

/-- ProgramChangeController::get: uint8_t(max(min(curr + base, 127), 0)). -/
def pc_get (curr base : Int) : Int := max (min (curr + base) 127) 0

/-- The four button-driven operations of ProgramChangeController. -/
inductive PCOp
  | up
  | down
  | group_up
  | group_down
deriving DecidableEq, Repr

/-- The effect of one fired ProgramChangeController button operation on
base: up/down step by 1 under the guards base < 127 / base > 0,
group_up/group_down step by 5 under the same guards. -/
def pc_apply (base : Int) : PCOp → Int
  | PCOp.up => if base < 127 then base + 1 else base
  | PCOp.down => if 0 < base then base - 1 else base
  | PCOp.group_up => if base < 127 then base + 5 else base
  | PCOp.group_down => if 0 < base then base - 5 else base

/-- The button-driven operations of BankSelectController. -/
inductive BankOp
  | up
  | down
deriving DecidableEq, Repr

/-- The effect of one fired BankSelectController button operation on
curr (a uint8_t): ++curr under curr < 127, --curr under curr > 0. -/
def bank_apply (curr : Nat) : BankOp → Nat
  | BankOp.up => if curr < 127 then curr + 1 else curr
  | BankOp.down => if 0 < curr then curr - 1 else curr

/-- The combined state of the two selectors, their flash segments
(SEGMENT_B for program change, SEGMENT_C for bank select) and the
deferred-commit timestamp. -/
structure State where
  base : Int
  bank : Nat
  flashB : List Nat
  flashC : List Nat
  save_delay_start_time : Int
deriving DecidableEq, Repr

/-- ProgramChangeController::up with the repeat_button outcome as the
fired input: when fired and base < 127, increment base and call
reset_save_delay. -/
def pc_up (fired : Bool) (now : Nat) (st : State) : State :=
  if fired ∧ st.base < 127 then
    { st with base := st.base + 1, save_delay_start_time := Storage.reset_save_delay now }
  else st

/-- ProgramChangeController::down. -/
def pc_down (fired : Bool) (now : Nat) (st : State) : State :=
  if fired ∧ 0 < st.base then
    { st with base := st.base - 1, save_delay_start_time := Storage.reset_save_delay now }
  else st

/-- ProgramChangeController::group_up: adds 5 under the same base < 127
guard used by up. -/
def pc_group_up (fired : Bool) (now : Nat) (st : State) : State :=
  if fired ∧ st.base < 127 then
    { st with base := st.base + 5, save_delay_start_time := Storage.reset_save_delay now }
  else st

/-- ProgramChangeController::group_down: subtracts 5 under the same
base > 0 guard used by down. -/
def pc_group_down (fired : Bool) (now : Nat) (st : State) : State :=
  if fired ∧ 0 < st.base then
    { st with base := st.base - 5, save_delay_start_time := Storage.reset_save_delay now }
  else st

/-- BankSelectController::up. -/
def bank_up (fired : Bool) (now : Nat) (st : State) : State :=
  if fired ∧ st.bank < 127 then
    { st with bank := st.bank + 1, save_delay_start_time := Storage.reset_save_delay now }
  else st

/-- BankSelectController::down. -/
def bank_down (fired : Bool) (now : Nat) (st : State) : State :=
  if fired ∧ 0 < st.bank then
    { st with bank := st.bank - 1, save_delay_start_time := Storage.reset_save_delay now }
  else st

/-- ProgramChangeController::save: clamp base to 0..127 and write it to
SEGMENT_B only when it differs from what the segment already stores.
fail is the flash driver's failure outcome for the program operation. -/
def pc_save (fail : Bool) (st : State) : State :=
  if (clamp127 st.base).toNat ≠ FlashManager.read st.flashB then
    { st with flashB := FlashManager.writeFail st.flashB (clamp127 st.base).toNat fail }
  else st

/-- BankSelectController::save: clamp curr (a uint8_t, so the clamp is
min with 127) and write it to SEGMENT_C only when it differs. -/
def bank_save (fail : Bool) (st : State) : State :=
  if min st.bank 127 ≠ FlashManager.read st.flashC then
    { st with flashC := FlashManager.writeFail st.flashC (min st.bank 127) fail }
  else st

/-- ControllerFactory::save_states: when should_save holds, run both
selector saves and then mark_saved, unconditionally. -/
def save_states (fail : Bool) (st : State) (now : Nat) : State :=
  if Storage.should_save st.save_delay_start_time now then
    { bank_save fail (pc_save fail st) with save_delay_start_time := Storage.mark_saved }
  else st

/-- The digital-input section of ControllerFactory::process_inputs, in
source order: program_change.up/down/group_up/group_down, then
bank_select.up/down.  Each Bool is the corresponding repeat_button's
fired outcome for this tick. -/
def apply_buttons (f1 f2 f3 f4 f5 f6 : Bool) (now : Nat) (st : State) : State :=
  bank_down f6 now (bank_up f5 now (pc_group_down f4 now (pc_group_up f3 now
    (pc_down f2 now (pc_up f1 now st)))))

/-- ControllerFactory::process_inputs: all inputs are sampled and routed
through the selectors, and save_states runs last (the flash driver
succeeding on this path). -/
def process_inputs (f1 f2 f3 f4 f5 f6 : Bool) (now : Nat) (st : State) : State :=
  save_states false (apply_buttons f1 f2 f3 f4 f5 f6 now st) now

end Controllers

end Nexus

/-! ## Lemmas about the wear-leveling flash store -/

namespace Nexus.FlashManager

theorem find_free_of_no_sentinel {l : List Nat} (h : ∀ x ∈ l, x ≠ sentinel) :
    find_free l = none := by
  induction l with
  | nil => rfl
  | cons b rest ih =>
    have hb : b ≠ sentinel := h b (List.mem_cons_self b rest)
    simp only [find_free, if_neg hb]
    rw [ih (fun x hx => h x (List.mem_cons_of_mem b hx))]
    rfl

theorem find_free_append {pre : List Nat} (rest : List Nat)
    (h : ∀ x ∈ pre, x ≠ sentinel) :
    find_free (pre ++ sentinel :: rest) = some pre.length := by
  induction pre with
  | nil => simp [find_free]
  | cons a pre ih =>
    have ha : a ≠ sentinel := h a (List.mem_cons_self a pre)
    have ih' := ih (fun x hx => h x (List.mem_cons_of_mem a hx))
    show (if a = sentinel then some 0
      else Option.map (fun i => i + 1) (find_free (pre ++ sentinel :: rest)))
        = some (a :: pre).length
    rw [if_neg ha, ih']
    simp

theorem set_append_cons (pre : List Nat) (b v : Nat) (rest : List Nat) :
    (pre ++ b :: rest).set pre.length v = pre ++ v :: rest := by
  induction pre with
  | nil => rfl
  | cons a pre ih => simp [List.set, ih]

theorem getD_append_cons (pre : List Nat) (v : Nat) (rest : List Nat) :
    (pre ++ v :: rest).getD pre.length 0 = v := by
  induction pre with
  | nil => rfl
  | cons a pre ih => simpa [List.getD] using ih

theorem read_programmed {pre : List Nat} {v m : Nat}
    (hpre : ∀ x ∈ pre, x ≠ sentinel) (hv : v ≠ sentinel)
    (hlen : pre.length + 1 + m = 64) :
    read (pre ++ v :: List.replicate m sentinel) = v := by
  have hpre2 : ∀ x ∈ pre ++ [v], x ≠ sentinel := by
    intro x hx
    rcases List.mem_append.1 hx with h1 | h2
    · exact hpre x h1
    · rw [List.mem_singleton] at h2
      rw [h2]; exact hv
  have hemp : empty (pre ++ v :: List.replicate m sentinel) = false := by
    cases pre with
    | nil => simpa [empty] using hv
    | cons a t =>
      have ha : a ≠ sentinel := hpre a (List.mem_cons_self a t)
      simpa [empty] using ha
  rw [read, hemp]
  simp only [Bool.false_eq_true, if_false]
  cases m with
  | zero =>
    show (match find_free (pre ++ [v]) with
      | some p => (pre ++ [v]).getD (p - 1) 0
      | none => (pre ++ [v]).getD 63 0) = v
    rw [find_free_of_no_sentinel hpre2]
    have h63 : (63 : Nat) = pre.length := by omega
    show (pre ++ [v]).getD 63 0 = v
    rw [h63]
    exact getD_append_cons pre v []
  | succ k =>
    have hsplit0 : pre ++ v :: List.replicate (k + 1) sentinel
        = (pre ++ [v]) ++ sentinel :: List.replicate k sentinel := by
      simp [List.replicate_succ]
    rw [hsplit0, find_free_append _ hpre2]
    show ((pre ++ [v]) ++ sentinel :: List.replicate k sentinel).getD
      ((pre ++ [v]).length - 1) 0 = v
    have hlen2 : (pre ++ [v]).length - 1 = pre.length := by simp
    have hsplit : (pre ++ [v]) ++ sentinel :: List.replicate k sentinel
        = pre ++ v :: (sentinel :: List.replicate k sentinel) := by simp
    rw [hlen2, hsplit]
    exact getD_append_cons pre v _

theorem write_not_full {pre : List Nat} {m : Nat} (v : Nat)
    (hpre : ∀ x ∈ pre, x ≠ sentinel) (hm : m ≠ 0) :
    write (pre ++ List.replicate m sentinel) v
      = (pre ++ v :: List.replicate (m - 1) sentinel, 0) := by
  cases m with
  | zero => exact absurd rfl hm
  | succ k =>
    rw [write]
    rw [show List.replicate (k + 1) sentinel = sentinel :: List.replicate k sentinel from
      List.replicate_succ sentinel k]
    rw [find_free_append _ hpre]
    simp [set_append_cons]

theorem write_full {seg : List Nat} (v : Nat) (h : ∀ x ∈ seg, x ≠ sentinel) :
    write seg v = (v :: List.replicate 63 sentinel, 1) := by
  rw [write, find_free_of_no_sentinel h]
  rfl

theorem writeSeq_fill :
    ∀ (vs pre : List Nat) (m : Nat), (∀ x ∈ pre, x ≠ sentinel) →
      (∀ v ∈ vs, v ≠ sentinel) → vs.length ≤ m →
      writeSeq (pre ++ List.replicate m sentinel) vs
        = (pre ++ vs ++ List.replicate (m - vs.length) sentinel, 0) := by
  intro vs
  induction vs with
  | nil => intro pre m h1 h2 h3; simp [writeSeq]
  | cons v vs ih =>
    intro pre m hpre hvs hle
    have hm : m ≠ 0 := by
      have := List.length_cons v vs ▸ hle
      omega
    have hv : v ≠ sentinel := hvs v (List.mem_cons_self v vs)
    rw [writeSeq]
    simp only [write_not_full v hpre hm]
    have hsplit : pre ++ v :: List.replicate (m - 1) sentinel
        = (pre ++ [v]) ++ List.replicate (m - 1) sentinel := by simp
    have hpre2 : ∀ x ∈ pre ++ [v], x ≠ sentinel := by
      intro x hx
      rcases List.mem_append.1 hx with h1 | h2
      · exact hpre x h1
      · rw [List.mem_singleton] at h2; exact h2 ▸ hv
    have hle2 : vs.length ≤ m - 1 := by
      have := List.length_cons v vs ▸ hle
      omega
    rw [hsplit, ih (pre ++ [v]) (m - 1) hpre2
      (fun x hx => hvs x (List.mem_cons_of_mem v hx)) hle2]
    have harr : m - 1 - vs.length = m - (v :: vs).length := by
      rw [List.length_cons]; omega
    simp [harr]

theorem read_write_wf {seg : List Nat} {v : Nat} (hwf : WF seg) (hv : v ≠ sentinel) :
    read (write seg v).1 = v ∧ WF (write seg v).1 := by
  obtain ⟨pre, m, hpre, rfl, hlen⟩ := hwf
  cases m with
  | zero =>
    have hfull : ∀ x ∈ pre ++ List.replicate 0 sentinel, x ≠ sentinel := by
      simpa using hpre
    rw [write_full v hfull]
    constructor
    · have : (v :: List.replicate 63 sentinel)
          = [] ++ v :: List.replicate 63 sentinel := rfl
      rw [this]
      exact read_programmed (by simp) hv (by simp)
    · exact ⟨[v], 63, by simpa using hv, by simp [List.replicate_succ], by simp⟩
  | succ k =>
    rw [write_not_full v hpre (Nat.succ_ne_zero k)]
    constructor
    · exact read_programmed hpre hv (by omega)
    · refine ⟨pre ++ [v], k, ?_, by simp, by simp; omega⟩
      intro x hx
      rcases List.mem_append.1 hx with h1 | h2
      · exact hpre x h1
      · rw [List.mem_singleton] at h2; exact h2 ▸ hv

theorem WF_erase : WF erase :=
  ⟨[], 64, by simp, rfl, rfl⟩

end Nexus.FlashManager

/-! ## Claim theorems: wear-leveling store (C1) and debouncer (C2) -/

namespace Nexus

/-- C1: WearLevelingStore round-trip.  On a freshly erased segment, for
every value v in 0..254, write(v) then read() returns v (and the write
performs no erase); and once 64 writes of non-sentinel values have
filled the segment, the next (65th) write triggers exactly one erase of
the whole segment and programs the new value at index 0. -/
theorem wear_leveling_roundtrip :
    (∀ v : Nat, v ≤ 254 →
      FlashManager.read (FlashManager.write FlashManager.erase v).1 = v ∧
      (FlashManager.write FlashManager.erase v).2 = 0) ∧
    (∀ vs : List Nat, vs.length = 64 → (∀ v ∈ vs, v ≠ FlashManager.sentinel) →
      (FlashManager.writeSeq FlashManager.erase vs).2 = 0 ∧
      FlashManager.find_free (FlashManager.writeSeq FlashManager.erase vs).1 = none ∧
      (∀ v : Nat, v ≠ FlashManager.sentinel →
        (FlashManager.write (FlashManager.writeSeq FlashManager.erase vs).1 v).2 = 1 ∧
        (FlashManager.write (FlashManager.writeSeq FlashManager.erase vs).1 v).1
          = v :: List.replicate 63 FlashManager.sentinel)) := by
  have herase : FlashManager.erase
      = ([] : List Nat) ++ List.replicate 64 FlashManager.sentinel := rfl
  constructor
  · intro v hv
    have hv255 : v ≠ FlashManager.sentinel := by
      unfold FlashManager.sentinel
      omega
    rw [herase, FlashManager.write_not_full v (by simp) (by norm_num)]
    constructor
    · exact FlashManager.read_programmed (by simp) hv255 (by simp)
    · rfl
  · intro vs hlen hvs
    have hseq := FlashManager.writeSeq_fill vs [] 64 (by simp) hvs (by omega)
    rw [herase, hseq]
    have hvs2 : ∀ x ∈ ([] : List Nat) ++ vs ++
        List.replicate (64 - vs.length) FlashManager.sentinel, x ≠ FlashManager.sentinel := by
      intro x hx
      rw [hlen] at hx
      simp at hx
      exact hvs x hx
    refine ⟨rfl, FlashManager.find_free_of_no_sentinel hvs2, ?_⟩
    intro v hv
    rw [FlashManager.write_full v hvs2]
    exact ⟨rfl, rfl⟩

/-- Witness for C1 at v = 7 and the write sequence [0, 0, ..., 0] of
length 64 followed by the value 9. -/
theorem wear_leveling_roundtrip_witness :
    FlashManager.read (FlashManager.write FlashManager.erase 7).1 = 7 ∧
    (FlashManager.write (FlashManager.writeSeq FlashManager.erase
      (List.replicate 64 0)).1 9).2 = 1 :=
  ⟨(wear_leveling_roundtrip.1 7 (by norm_num)).1,
   ((wear_leveling_roundtrip.2 (List.replicate 64 0) (by simp) (by decide)).2.2 9
     (by decide)).1⟩

/-- C2 counterexample: with the standard policy and samples = 10,
starting from the fresh state (counter 0, state false), the 10th
consecutive true reading does NOT flip the debounced state to true (the
counter merely saturates; the flip happens on the 11th reading). -/
theorem debouncer_tenth_reading_cex :
    (Util.debounce_run false 10 (0, false) (List.replicate 10 true)).2 = false := by
  decide

/-- C2 (amended): with the standard policy and samples = 10, from the
fresh state, feeding true 9 times and then false leaves the state
false; even 10 consecutive true readings leave it false; the state
flips to true on the 11th consecutive true reading. -/
theorem debouncer_consecutive_samples :
    (Util.debounce_run false 10 (0, false) (List.replicate 9 true ++ [false])).2 = false ∧
    (Util.debounce_run false 10 (0, false) (List.replicate 10 true)).2 = false ∧
    (Util.debounce_run false 10 (0, false) (List.replicate 11 true)).2 = true := by
  refine ⟨?_, ?_, ?_⟩ <;> decide

end Nexus

/-! ## Claim theorems: selector range (C4), clamped output (C10),
hysteresis gate (C7) -/

namespace Nexus

theorem pc_apply_step_range {b : Int} (op : Controllers.PCOp)
    (h0 : -4 ≤ b) (h1 : b ≤ 131) :
    -4 ≤ Controllers.pc_apply b op ∧ Controllers.pc_apply b op ≤ 131 := by
  cases op <;> simp only [Controllers.pc_apply] <;> split <;> omega

theorem pc_apply_foldl_range (ops : List Controllers.PCOp) :
    ∀ b : Int, -4 ≤ b → b ≤ 131 →
      -4 ≤ List.foldl Controllers.pc_apply b ops ∧
      List.foldl Controllers.pc_apply b ops ≤ 131 := by
  induction ops with
  | nil => intro b h0 h1; exact ⟨h0, h1⟩
  | cons op ops ih =>
    intro b h0 h1
    have hs := pc_apply_step_range op h0 h1
    exact ih (Controllers.pc_apply b op) hs.1 hs.2

theorem bank_apply_foldl_range (bops : List Controllers.BankOp) :
    ∀ c : Nat, c ≤ 127 → List.foldl Controllers.bank_apply c bops ≤ 127 := by
  induction bops with
  | nil => intro c hc; exact hc
  | cons op ops ih =>
    intro c hc
    apply ih
    cases op <;> simp only [Controllers.bank_apply] <;> split <;> omega

/-- C4 counterexample: starting from base = 126 (inside 0..127), a
single fired group_up takes the in-memory base to 131, outside 0..127;
the stored in-memory value is NOT clamped to 0..127 after arbitrary
sequences of up/down/group_up/group_down operations. -/
theorem selector_base_clamp_cex :
    ((0 : Int) ≤ 126 ∧ (126 : Int) ≤ 127) ∧
    List.foldl Controllers.pc_apply 126 [Controllers.PCOp.group_up] = 131 ∧
    ¬ (List.foldl Controllers.pc_apply 126 [Controllers.PCOp.group_up] ≤ 127) := by
  refine ⟨⟨by norm_num, by norm_num⟩, by decide, by decide⟩

/-- C4 (amended): starting from a base value in 0..127, every sequence
of fired up/down/group_up/group_down operations keeps
ProgramChangeController::base in -4..131 (group steps can overshoot
0..127 by at most 4; the clamp to 0..127 is applied only in get() and
save(), not to the stored value), while BankSelectController::curr,
which has only up/down, does stay in 0..127. -/
theorem selector_base_range (ops : List Controllers.PCOp) (b : Int)
    (h0 : 0 ≤ b) (h1 : b ≤ 127) :
    (-4 ≤ List.foldl Controllers.pc_apply b ops ∧
     List.foldl Controllers.pc_apply b ops ≤ 131) ∧
    (∀ (bops : List Controllers.BankOp) (c : Nat), c ≤ 127 →
      List.foldl Controllers.bank_apply c bops ≤ 127) :=
  ⟨pc_apply_foldl_range ops b (by omega) (by omega),
   fun bops c hc => bank_apply_foldl_range bops c hc⟩

/-- Witness for the amended C4 at the sequence [group_up, group_up]
from base 120. -/
theorem selector_base_range_witness :
    (-4 ≤ List.foldl Controllers.pc_apply 120
        [Controllers.PCOp.group_up, Controllers.PCOp.group_up] ∧
     List.foldl Controllers.pc_apply 120
        [Controllers.PCOp.group_up, Controllers.PCOp.group_up] ≤ 131) ∧
    (∀ (bops : List Controllers.BankOp) (c : Nat), c ≤ 127 →
      List.foldl Controllers.bank_apply c bops ≤ 127) :=
  selector_base_range [Controllers.PCOp.group_up, Controllers.PCOp.group_up] 120
    (by norm_num) (by norm_num)

/-- C10: for every controller state, including base values outside
0..127, ProgramChangeController::get() returns
max(min(curr + base, 127), 0), which always lies in 0..127, so
transmit() only emits program numbers in the legal range. -/
theorem pc_get_always_in_range (curr base : Int) :
    Controllers.pc_get curr base = max (min (curr + base) 127) 0 ∧
    0 ≤ Controllers.pc_get curr base ∧ Controllers.pc_get curr base ≤ 127 := by
  refine ⟨rfl, le_max_right _ _, ?_⟩
  rw [Controllers.pc_get]
  rcases le_or_lt (curr + base) 127 with h | h
  · rw [min_eq_left h]
    rcases le_or_lt 0 (curr + base) with h2 | h2
    · rw [max_eq_left h2]; exact h
    · rw [max_eq_right (le_of_lt h2)]; norm_num
  · rw [min_eq_right (le_of_lt h)]
    rw [max_eq_left (by norm_num)]

/-- C7: for the hysteresis gate with window w and reference ref, every
sample inside the closed band [ref - w, ref + w] neither fires nor
moves the reference (so whole in-band sequences leave the gate silent
and the reference unchanged), and any sample strictly outside the band
fires and becomes the new reference. -/
theorem gate_window_behavior (window : Nat) (val : Int) (xs : List Int)
    (h : ∀ x ∈ xs, val - window ≤ x ∧ x ≤ val + window) :
    Util.gate_run window val xs = (val, List.replicate xs.length false) ∧
    (∀ s : Int, s < val - window ∨ s > val + window →
      Util.gate_step window val s = (s, true)) := by
  constructor
  · induction xs with
    | nil => rfl
    | cons x rest ih =>
      have hx := h x (List.mem_cons_self x rest)
      have hstep : Util.gate_step window val x = (val, false) := by
        rw [Util.gate_step, if_neg]
        push_neg
        exact hx
      have ih' := ih (fun y hy => h y (List.mem_cons_of_mem x hy))
      show (let r := Util.gate_step window val x
            let rr := Util.gate_run window r.1 rest
            (rr.1, r.2 :: rr.2)) = (val, List.replicate (x :: rest).length false)
      rw [hstep]
      show ((Util.gate_run window val rest).1,
        false :: (Util.gate_run window val rest).2)
          = (val, List.replicate (x :: rest).length false)
      rw [ih']
      simp [List.replicate_succ]
  · intro s hs
    rw [Util.gate_step, if_pos hs]

/-- Witness for C7: window 4, reference 0, in-band samples [1, -2, 3]. -/
theorem gate_window_behavior_witness :
    Util.gate_run 4 0 [1, -2, 3] = (0, List.replicate 3 false) ∧
    (∀ s : Int, s < 0 - (4 : Nat) ∨ s > 0 + (4 : Nat) →
      Util.gate_step 4 0 s = (s, true)) :=
  gate_window_behavior 4 0 [1, -2, 3] (by decide)

end Nexus

/-! ## Lemmas about the selectors and save path (C3, C9) -/

namespace Nexus

theorem writeFail_true (seg : List Nat) (v : Nat) :
    FlashManager.writeFail seg v true = seg := by
  cases h : FlashManager.find_free seg <;> simp [FlashManager.writeFail, h]

theorem writeFail_false (seg : List Nat) (v : Nat) :
    FlashManager.writeFail seg v false = (FlashManager.write seg v).1 := by
  cases h : FlashManager.find_free seg <;> simp [FlashManager.writeFail, FlashManager.write, h]

theorem pc_save_base (fail : Bool) (st : Controllers.State) :
    (Controllers.pc_save fail st).base = st.base := by
  rw [Controllers.pc_save]; split <;> rfl

theorem pc_save_bank (fail : Bool) (st : Controllers.State) :
    (Controllers.pc_save fail st).bank = st.bank := by
  rw [Controllers.pc_save]; split <;> rfl

theorem pc_save_flashC (fail : Bool) (st : Controllers.State) :
    (Controllers.pc_save fail st).flashC = st.flashC := by
  rw [Controllers.pc_save]; split <;> rfl

theorem bank_save_base (fail : Bool) (st : Controllers.State) :
    (Controllers.bank_save fail st).base = st.base := by
  rw [Controllers.bank_save]; split <;> rfl

theorem bank_save_bank (fail : Bool) (st : Controllers.State) :
    (Controllers.bank_save fail st).bank = st.bank := by
  rw [Controllers.bank_save]; split <;> rfl

theorem bank_save_flashB (fail : Bool) (st : Controllers.State) :
    (Controllers.bank_save fail st).flashB = st.flashB := by
  rw [Controllers.bank_save]; split <;> rfl

theorem pc_save_fail_flashB (st : Controllers.State) :
    (Controllers.pc_save true st).flashB = st.flashB := by
  rw [Controllers.pc_save]
  split
  · show FlashManager.writeFail st.flashB (Controllers.clamp127 st.base).toNat true
      = st.flashB
    exact writeFail_true _ _
  · rfl

theorem bank_save_fail_flashC (st : Controllers.State) :
    (Controllers.bank_save true st).flashC = st.flashC := by
  rw [Controllers.bank_save]
  split
  · show FlashManager.writeFail st.flashC (min st.bank 127) true = st.flashC
    exact writeFail_true _ _
  · rfl

theorem clamp127_le (x : Int) : (Controllers.clamp127 x).toNat ≤ 127 := by
  rw [Controllers.clamp127]
  rcases le_or_lt (min x 127) 0 with h | h
  · rw [max_eq_right h]; simp
  · rw [max_eq_left (le_of_lt h)]
    have : min x 127 ≤ 127 := min_le_right _ _
    omega

theorem pc_save_read (st : Controllers.State) (hB : FlashManager.WF st.flashB) :
    FlashManager.read (Controllers.pc_save false st).flashB
      = (Controllers.clamp127 st.base).toNat ∧
    FlashManager.WF (Controllers.pc_save false st).flashB := by
  have hv : (Controllers.clamp127 st.base).toNat ≠ FlashManager.sentinel := by
    have := clamp127_le st.base
    rw [FlashManager.sentinel]
    omega
  rw [Controllers.pc_save]
  split
  · show FlashManager.read (FlashManager.writeFail st.flashB
        (Controllers.clamp127 st.base).toNat false) = _ ∧
      FlashManager.WF (FlashManager.writeFail st.flashB
        (Controllers.clamp127 st.base).toNat false)
    rw [writeFail_false]
    exact FlashManager.read_write_wf hB hv
  · next hne =>
    push_neg at hne
    exact ⟨hne.symm, hB⟩

theorem bank_save_read (st : Controllers.State) (hC : FlashManager.WF st.flashC) :
    FlashManager.read (Controllers.bank_save false st).flashC = min st.bank 127 ∧
    FlashManager.WF (Controllers.bank_save false st).flashC := by
  have hv : min st.bank 127 ≠ FlashManager.sentinel := by
    have : min st.bank 127 ≤ 127 := min_le_right _ _
    rw [FlashManager.sentinel]
    omega
  rw [Controllers.bank_save]
  split
  · show FlashManager.read (FlashManager.writeFail st.flashC (min st.bank 127) false) = _ ∧
      FlashManager.WF (FlashManager.writeFail st.flashC (min st.bank 127) false)
    rw [writeFail_false]
    exact FlashManager.read_write_wf hC hv
  · next hne =>
    push_neg at hne
    exact ⟨hne.symm, hC⟩

end Nexus

/-! ## Claim theorems: storage failure semantics (C3) and tick ordering (C9) -/

namespace Nexus

/-- C3 counterexample: a concrete run in which the flash driver fails
every program operation.  The pending change (base 5, marked dirty at
time 0, checked at time 3001) is attempted, the segment keeps its old
contents (the value 5 is lost), and yet save_states still clears the
pending marker to -1, so nothing is retried later; no storage-error
value exists anywhere in the write path, whose source type is void. -/
theorem storage_failure_cex :
    Storage.should_save 0 3001 = true ∧
    (Controllers.save_states true
      { base := 5, bank := 0, flashB := FlashManager.erase,
        flashC := FlashManager.erase, save_delay_start_time := 0 }
      3001).save_delay_start_time = Storage.mark_saved ∧
    (Controllers.save_states true
      { base := 5, bank := 0, flashB := FlashManager.erase,
        flashC := FlashManager.erase, save_delay_start_time := 0 }
      3001).flashB = FlashManager.erase := by
  refine ⟨by decide, by decide, by decide⟩

/-- C3 (amended): on a flash program/erase failure the store leaves the
prior segment content intact and the selectors keep their last-known
in-memory values, but no storage-error condition is propagated
(FlashManager::write and the flash driver calls all return void) and
save_states calls mark_saved unconditionally after a commit attempt, so
a failed write clears the pending marker and is NOT retried on a later
commit check. -/
theorem storage_failure_semantics (fail : Bool) (st : Controllers.State) (now : Nat)
    (h : Storage.should_save st.save_delay_start_time now = true) :
    (Controllers.save_states fail st now).base = st.base ∧
    (Controllers.save_states fail st now).bank = st.bank ∧
    (Controllers.save_states fail st now).save_delay_start_time = Storage.mark_saved ∧
    (fail = true → (Controllers.save_states fail st now).flashB = st.flashB ∧
      (Controllers.save_states fail st now).flashC = st.flashC) := by
  rw [Controllers.save_states, if_pos h]
  refine ⟨?_, ?_, rfl, ?_⟩
  · show (Controllers.bank_save fail (Controllers.pc_save fail st)).base = st.base
    rw [bank_save_base, pc_save_base]
  · show (Controllers.bank_save fail (Controllers.pc_save fail st)).bank = st.bank
    rw [bank_save_bank, pc_save_bank]
  · intro hf
    subst hf
    constructor
    · show (Controllers.bank_save true (Controllers.pc_save true st)).flashB = st.flashB
      rw [bank_save_flashB, pc_save_fail_flashB]
    · show (Controllers.bank_save true (Controllers.pc_save true st)).flashC = st.flashC
      rw [bank_save_fail_flashC, pc_save_flashC]

/-- Witness for the amended C3 at the concrete failing run of the
counterexample. -/
theorem storage_failure_semantics_witness :
    (Controllers.save_states true
      { base := 5, bank := 0, flashB := FlashManager.erase,
        flashC := FlashManager.erase, save_delay_start_time := 0 }
      3001).base = 5 ∧
    (Controllers.save_states true
      { base := 5, bank := 0, flashB := FlashManager.erase,
        flashC := FlashManager.erase, save_delay_start_time := 0 }
      3001).save_delay_start_time = Storage.mark_saved :=
  ⟨(storage_failure_semantics true
      { base := 5, bank := 0, flashB := FlashManager.erase,
        flashC := FlashManager.erase, save_delay_start_time := 0 }
      3001 (by decide)).1,
   (storage_failure_semantics true
      { base := 5, bank := 0, flashB := FlashManager.erase,
        flashC := FlashManager.erase, save_delay_start_time := 0 }
      3001 (by decide)).2.2.1⟩

theorem pc_up_flash (fired : Bool) (now : Nat) (st : Controllers.State) :
    (Controllers.pc_up fired now st).flashB = st.flashB ∧
    (Controllers.pc_up fired now st).flashC = st.flashC := by
  rw [Controllers.pc_up]; split <;> exact ⟨rfl, rfl⟩

theorem pc_down_flash (fired : Bool) (now : Nat) (st : Controllers.State) :
    (Controllers.pc_down fired now st).flashB = st.flashB ∧
    (Controllers.pc_down fired now st).flashC = st.flashC := by
  rw [Controllers.pc_down]; split <;> exact ⟨rfl, rfl⟩

theorem pc_group_up_flash (fired : Bool) (now : Nat) (st : Controllers.State) :
    (Controllers.pc_group_up fired now st).flashB = st.flashB ∧
    (Controllers.pc_group_up fired now st).flashC = st.flashC := by
  rw [Controllers.pc_group_up]; split <;> exact ⟨rfl, rfl⟩

theorem pc_group_down_flash (fired : Bool) (now : Nat) (st : Controllers.State) :
    (Controllers.pc_group_down fired now st).flashB = st.flashB ∧
    (Controllers.pc_group_down fired now st).flashC = st.flashC := by
  rw [Controllers.pc_group_down]; split <;> exact ⟨rfl, rfl⟩

theorem bank_up_flash (fired : Bool) (now : Nat) (st : Controllers.State) :
    (Controllers.bank_up fired now st).flashB = st.flashB ∧
    (Controllers.bank_up fired now st).flashC = st.flashC := by
  rw [Controllers.bank_up]; split <;> exact ⟨rfl, rfl⟩

theorem bank_down_flash (fired : Bool) (now : Nat) (st : Controllers.State) :
    (Controllers.bank_down fired now st).flashB = st.flashB ∧
    (Controllers.bank_down fired now st).flashC = st.flashC := by
  rw [Controllers.bank_down]; split <;> exact ⟨rfl, rfl⟩

theorem apply_buttons_flash (f1 f2 f3 f4 f5 f6 : Bool) (now : Nat)
    (st : Controllers.State) :
    (Controllers.apply_buttons f1 f2 f3 f4 f5 f6 now st).flashB = st.flashB ∧
    (Controllers.apply_buttons f1 f2 f3 f4 f5 f6 now st).flashC = st.flashC := by
  rw [Controllers.apply_buttons]
  rw [(bank_down_flash f6 now _).1, (bank_up_flash f5 now _).1,
    (pc_group_down_flash f4 now _).1, (pc_group_up_flash f3 now _).1,
    (pc_down_flash f2 now _).1, (pc_up_flash f1 now _).1]
  rw [(bank_down_flash f6 now _).2, (bank_up_flash f5 now _).2,
    (pc_group_down_flash f4 now _).2, (pc_group_up_flash f3 now _).2,
    (pc_down_flash f2 now _).2, (pc_up_flash f1 now _).2]
  exact ⟨rfl, rfl⟩

theorem save_states_commit_read (st : Controllers.State) (now : Nat)
    (hB : FlashManager.WF st.flashB) (hC : FlashManager.WF st.flashC)
    (h : Storage.should_save st.save_delay_start_time now = true) :
    FlashManager.read (Controllers.save_states false st now).flashB
      = (Controllers.clamp127 st.base).toNat ∧
    FlashManager.read (Controllers.save_states false st now).flashC
      = min st.bank 127 := by
  rw [Controllers.save_states, if_pos h]
  constructor
  · show FlashManager.read
      (Controllers.bank_save false (Controllers.pc_save false st)).flashB = _
    rw [bank_save_flashB]
    rw [(pc_save_read st hB).1]
  · show FlashManager.read
      (Controllers.bank_save false (Controllers.pc_save false st)).flashC = _
    have hC2 : FlashManager.WF (Controllers.pc_save false st).flashC := by
      rw [pc_save_flashC]; exact hC
    have := (bank_save_read (Controllers.pc_save false st) hC2).1
    rw [this, pc_save_bank]

/-- C9: within one tick of process_inputs, all digital button inputs
are routed through the selectors before the commit-scheduler check, so
when the check triggers a save, the values that become durable are
exactly the post-tick selector values (the clamped base after all of
this tick's button operations, and likewise the bank value) -- a
commit-triggered save never observes a half-updated selector state. -/
theorem process_inputs_commit_ordering (f1 f2 f3 f4 f5 f6 : Bool) (now : Nat)
    (st : Controllers.State)
    (hB : FlashManager.WF st.flashB) (hC : FlashManager.WF st.flashC)
    (h : Storage.should_save
      (Controllers.apply_buttons f1 f2 f3 f4 f5 f6 now st).save_delay_start_time
      now = true) :
    FlashManager.read (Controllers.process_inputs f1 f2 f3 f4 f5 f6 now st).flashB
      = (Controllers.clamp127
          (Controllers.apply_buttons f1 f2 f3 f4 f5 f6 now st).base).toNat ∧
    FlashManager.read (Controllers.process_inputs f1 f2 f3 f4 f5 f6 now st).flashC
      = min (Controllers.apply_buttons f1 f2 f3 f4 f5 f6 now st).bank 127 := by
  have hB2 : FlashManager.WF
      (Controllers.apply_buttons f1 f2 f3 f4 f5 f6 now st).flashB := by
    rw [(apply_buttons_flash f1 f2 f3 f4 f5 f6 now st).1]; exact hB
  have hC2 : FlashManager.WF
      (Controllers.apply_buttons f1 f2 f3 f4 f5 f6 now st).flashC := by
    rw [(apply_buttons_flash f1 f2 f3 f4 f5 f6 now st).2]; exact hC
  exact save_states_commit_read _ now hB2 hC2 h

/-- Witness for C9: a tick with no button firing this tick, a change
pending since time 0, and the commit check at time 3001; both segments
start erased. -/
theorem process_inputs_commit_ordering_witness :
    FlashManager.read (Controllers.process_inputs false false false false false false
      3001 { base := 5, bank := 3, flashB := FlashManager.erase,
             flashC := FlashManager.erase, save_delay_start_time := 0 }).flashB
      = (Controllers.clamp127 (Controllers.apply_buttons false false false false
          false false 3001
          { base := 5, bank := 3, flashB := FlashManager.erase,
            flashC := FlashManager.erase, save_delay_start_time := 0 }).base).toNat ∧
    FlashManager.read (Controllers.process_inputs false false false false false false
      3001 { base := 5, bank := 3, flashB := FlashManager.erase,
             flashC := FlashManager.erase, save_delay_start_time := 0 }).flashC
      = min (Controllers.apply_buttons false false false false false false 3001
          { base := 5, bank := 3, flashB := FlashManager.erase,
            flashC := FlashManager.erase, save_delay_start_time := 0 }).bank 127 :=
  process_inputs_commit_ordering false false false false false false 3001
    { base := 5, bank := 3, flashB := FlashManager.erase,
      flashC := FlashManager.erase, save_delay_start_time := 0 }
    FlashManager.WF_erase FlashManager.WF_erase (by decide)

end Nexus

/-! ## Claim theorems: deferred commit scheduler (C8) -/

namespace Nexus

theorem toUInt32_toInt32 (n : Nat) :
    Storage.toUInt32 (Storage.toInt32 n) = n % 4294967296 := by
  rw [Storage.toInt32, Storage.toUInt32]
  have hlt : n % 4294967296 < 4294967296 := Nat.mod_lt n (by norm_num)
  split
  · rw [sub_zero]
    rw [Int.emod_eq_of_lt (by exact_mod_cast Nat.zero_le _) (by exact_mod_cast hlt)]
    exact Int.toNat_natCast _
  · omega

/-- C8 counterexample: should_save misbehaves near the 32-bit wrap of
the millisecond counter.  With the pending timestamp set at
t = 2^32 - 3000, the query at t + commit_delay - 1 already returns true
(the uint32 sum save_delay_start_time + save_delay wraps to 0); and
with the timestamp set at t = 2^32 - 1, its int32 image collides with
the -1 idle sentinel, so the query at t + commit_delay + 1 returns
false.  Both contradict the claim's for-every-t boundary behavior. -/
theorem deferred_commit_wrap_cex :
    Storage.should_save (Storage.reset_save_delay 4294964296) (4294964296 + 2999) = true ∧
    Storage.should_save (Storage.reset_save_delay 4294967295) (4294967295 + 3001) = false := by
  refine ⟨by decide, by decide⟩

/-- C8 (amended): for every time t whose 32-bit residue is at most
2^32 - 3002 (so that neither query wraps the uint32 counter and the
stored int32 timestamp is not the -1 sentinel), marking dirty at t
makes should_save false at t + 2999 and true at t + 3001, with
commit_delay = 3000 ms; and after mark_saved, should_save is false at
every time. -/
theorem deferred_commit_boundaries (t : Nat)
    (ht : t % 4294967296 ≤ 4294964294) :
    Storage.should_save (Storage.reset_save_delay t) (t + 2999) = false ∧
    Storage.should_save (Storage.reset_save_delay t) (t + 3001) = true ∧
    (∀ now : Nat, Storage.should_save Storage.mark_saved now = false) := by
  have hne : Storage.toInt32 t ≠ -1 := by
    rw [Storage.toInt32]
    split
    · next hc => omega
    · next hc => omega
  have h2 : Storage.toUInt32 (Storage.toInt32 t) = t % 4294967296 :=
    toUInt32_toInt32 t
  have e1 : (t % 4294967296 + 3000) % 4294967296 = t % 4294967296 + 3000 :=
    Nat.mod_eq_of_lt (by omega)
  have e2 : (t + 2999) % 4294967296 = t % 4294967296 + 2999 := by
    rw [Nat.add_mod]
    exact Nat.mod_eq_of_lt (by omega)
  have e3 : (t + 3001) % 4294967296 = t % 4294967296 + 3001 := by
    rw [Nat.add_mod]
    exact Nat.mod_eq_of_lt (by omega)
  refine ⟨?_, ?_, ?_⟩
  · rw [Storage.should_save, Storage.reset_save_delay, h2, Storage.save_delay, e1, e2]
    have hnot : ¬ (t % 4294967296 + 2999 > t % 4294967296 + 3000) := by omega
    simp [hnot]
  · rw [Storage.should_save, Storage.reset_save_delay, h2, Storage.save_delay, e1, e3]
    have hyes : t % 4294967296 + 3001 > t % 4294967296 + 3000 := by omega
    simp [hne, hyes]
  · intro now
    rw [Storage.should_save, Storage.mark_saved]
    simp

/-- Witness for the amended C8 at t = 5000. -/
theorem deferred_commit_boundaries_witness :
    Storage.should_save (Storage.reset_save_delay 5000) (5000 + 2999) = false ∧
    Storage.should_save (Storage.reset_save_delay 5000) (5000 + 3001) = true ∧
    (∀ now : Nat, Storage.should_save Storage.mark_saved now = false) :=
  deferred_commit_boundaries 5000 (by norm_num)

end Nexus

/-! ## Claim theorems: repeat button timing (C5) -/

namespace Nexus

theorem repeat_button_stall_step (st : Util.RepeatButton) (now : Nat)
    (h1 : st.start_time = -1) (h2 : st.result = true) (h3 : st.prev = true) :
    Util.repeat_button_step st true now = ({ st with counter := 10 }, false) := by
  obtain ⟨c, r, p, s, dl⟩ := st
  dsimp only at h1 h2 h3
  subst h1; subst h2; subst h3
  rfl

theorem repeat_button_stall_run :
    ∀ (times : List Nat) (st : Util.RepeatButton), st.start_time = -1 →
      st.result = true → st.prev = true →
      (Util.repeat_button_run st (times.map (fun m => (true, m)))).2
        = List.replicate times.length false := by
  intro times
  induction times with
  | nil => intro st h1 h2 h3; rfl
  | cons m rest ih =>
    intro st h1 h2 h3
    show (let r := Util.repeat_button_step st true m
          let rr := Util.repeat_button_run r.1 (rest.map (fun m => (true, m)))
          (rr.1, r.2 :: rr.2)).2 = List.replicate (m :: rest).length false
    rw [repeat_button_stall_step st m h1 h2 h3]
    have hr := ih { st with counter := 10 } (by rw [← h1]) (by rw [← h2]) (by rw [← h3])
    show false :: (Util.repeat_button_run { st with counter := 10 }
      (rest.map (fun m => (true, m)))).2 = List.replicate (m :: rest).length false
    rw [hr, List.length_cons, List.replicate_succ]

/-- C5 counterexample: a press whose rising edge lands at
millis = 65535 (so held across the 16-bit wrap of the truncated clock)
does NOT keep firing on schedule.  The rising edge fires and stores
(int)millis() = -1 into start_time, which is the idle sentinel; at
millis = 66536, an unsigned modular elapsed time of 1001 ms > the
current 1000 ms initial delay, the button returns false instead of
firing.  The comparison is 16-bit signed with a -1 sentinel, not a
wraparound-safe unsigned difference. -/
theorem repeat_button_wrap_cex :
    (Util.repeat_button_step ⟨0, false, false, -1, 1000⟩ true 65535).2 = true ∧
    (Util.repeat_button_step ⟨0, false, false, -1, 1000⟩ true 65535).1.start_time = -1 ∧
    (Util.repeat_button_step
      (Util.repeat_button_step ⟨0, false, false, -1, 1000⟩ true 65535).1 true 66536).2
        = false ∧
    (66536 - 65535 : Nat) % 65536 > 1000 := by
  refine ⟨by decide, by decide, by decide, by decide⟩

/-- C5 (amended): repeat_button timing is not wraparound-safe.  It
compares (int)millis() > start_time + delay in 16-bit signed arithmetic
and uses -1 both as the idle sentinel and as a reachable clock value:
whenever start_time holds the sentinel while the debounced state is a
held press (result and prev both true, as happens when the rising edge
occurs at millis congruent to 65535 mod 2^16), every further held
reading leaves the state unchanged and never fires again, regardless of
elapsed time. -/
theorem repeat_button_sentinel_stall (st : Util.RepeatButton)
    (h1 : st.start_time = -1) (h2 : st.result = true) (h3 : st.prev = true) :
    (∀ now : Nat,
      Util.repeat_button_step st true now = ({ st with counter := 10 }, false)) ∧
    (∀ times : List Nat,
      (Util.repeat_button_run st (times.map (fun m => (true, m)))).2
        = List.replicate times.length false) :=
  ⟨fun now => repeat_button_stall_step st now h1 h2 h3,
   fun times => repeat_button_stall_run times st h1 h2 h3⟩

/-- Witness for the amended C5 at the stalled state reached in the
counterexample, held for three more samples spanning 3000 ms. -/
theorem repeat_button_sentinel_stall_witness :
    (∀ now : Nat, Util.repeat_button_step ⟨10, true, true, -1, 1000⟩ true now
      = ({ counter := 10, result := true, prev := true, start_time := -1, delay := 1000 }, false)) ∧
    (∀ times : List Nat,
      (Util.repeat_button_run ⟨10, true, true, -1, 1000⟩
        (times.map (fun m => (true, m)))).2 = List.replicate times.length false) :=
  repeat_button_sentinel_stall ⟨10, true, true, -1, 1000⟩ rfl rfl rfl

end Nexus

/-! ## Lemmas for the lowpass filter (C6): truncating division bounds
and convergence of the leaky integrator under a constant input -/

namespace Nexus

theorem tdiv_bounds_nonneg {k y : Int} (hk : 0 < k) (hy : 0 ≤ y) :
    k * Int.tdiv y k ≤ y ∧ y < k * Int.tdiv y k + k := by
  rw [Int.tdiv_eq_ediv hy (le_of_lt hk)]
  have h1 := Int.emod_add_ediv y k
  have h2 := Int.emod_nonneg y (ne_of_gt hk)
  have h3 := Int.emod_lt_of_pos y hk
  constructor
  · linarith
  · linarith

theorem tdiv_neg_bounds {k y : Int} (hk : 0 < k) (hy : y < 0) :
    y ≤ k * Int.tdiv y k ∧ Int.tdiv y k ≤ 0 := by
  have hy' : 0 ≤ -y := by omega
  have hneg : Int.tdiv y k = - Int.tdiv (-y) k := by
    conv_lhs => rw [show y = -(-y) by ring]
    exact Int.neg_tdiv (-y) k
  have hb := tdiv_bounds_nonneg hk hy'
  have hnn : 0 ≤ Int.tdiv (-y) k := Int.tdiv_nonneg hy' (le_of_lt hk)
  constructor
  · rw [hneg]
    have := hb.1
    linarith
  · rw [hneg]
    omega

theorem le_bound_of_tdiv_le {k s y : Int} (hk : 2 ≤ k) (hs : 0 ≤ s)
    (h : Int.tdiv y k ≤ s) : y ≤ k * s + k - 1 := by
  rcases le_or_lt 0 y with hy | hy
  · have hb := tdiv_bounds_nonneg (by omega : (0:Int) < k) hy
    have hdd : k * Int.tdiv y k ≤ k * s := mul_le_mul_of_nonneg_left h (by omega)
    linarith [hb.2]
  · have hks : 0 ≤ k * s := mul_nonneg (by omega) hs
    linarith

theorem tdiv_le_of_le_bound {k s y : Int} (hk : 2 ≤ k) (hs : 0 ≤ s)
    (h : y ≤ k * s + k - 1) : Int.tdiv y k ≤ s := by
  rcases le_or_lt 0 y with hy | hy
  · have hb := tdiv_bounds_nonneg (by omega : (0:Int) < k) hy
    by_contra hlt
    push_neg at hlt
    have hmul : k * (s + 1) ≤ k * Int.tdiv y k :=
      mul_le_mul_of_nonneg_left (by omega) (by omega)
    nlinarith [hb.1]
  · have hb := tdiv_neg_bounds (by omega : (0:Int) < k) hy
    omega

theorem s_le_tdiv_of_bound {k s y : Int} (hk : 2 ≤ k) (hs : 0 ≤ s)
    (h : k * s ≤ y) : s ≤ Int.tdiv y k := by
  have hy : 0 ≤ y := le_trans (mul_nonneg (by omega) hs) h
  have hb := tdiv_bounds_nonneg (by omega : (0:Int) < k) hy
  by_contra hlt
  push_neg at hlt
  have hmul : k * (Int.tdiv y k + 1) ≤ k * s :=
    mul_le_mul_of_nonneg_left (by omega) (by omega)
  nlinarith [hb.2]

theorem lowpass_step_of_eq {k s y : Int} (h : Int.tdiv y k = s) :
    Util.lowpass_step k y s = y := by
  rw [Util.lowpass_step, h]; ring

theorem lowpass_step_below {k s y : Int} (hk : 2 ≤ k) (hs : 0 ≤ s)
    (h : Int.tdiv y k < s) :
    y < Util.lowpass_step k y s ∧ Int.tdiv (Util.lowpass_step k y s) k ≤ s := by
  constructor
  · rw [Util.lowpass_step]
    linarith
  · apply tdiv_le_of_le_bound hk hs
    rw [Util.lowpass_step]
    rcases le_or_lt 0 y with hy | hy
    · have hb := tdiv_bounds_nonneg (by omega : (0:Int) < k) hy
      have hd1 : Int.tdiv y k ≤ s - 1 := by omega
      have hmul : Int.tdiv y k * (k - 1) ≤ (s - 1) * (k - 1) :=
        mul_le_mul_of_nonneg_right hd1 (by omega)
      nlinarith [hb.2]
    · have hb := tdiv_neg_bounds (by omega : (0:Int) < k) hy
      have hmul : Int.tdiv y k * (k - 1) ≤ 0 :=
        mul_nonpos_iff.mpr (Or.inr ⟨hb.2, by omega⟩)
      have hks : s ≤ k * s := by nlinarith
      nlinarith [hb.1]

theorem lowpass_step_above {k s y : Int} (hk : 2 ≤ k) (hs : 0 ≤ s)
    (h : s < Int.tdiv y k) :
    Util.lowpass_step k y s < y ∧ s ≤ Int.tdiv (Util.lowpass_step k y s) k := by
  have hy : 0 ≤ y := by
    by_contra hneg
    push_neg at hneg
    have hb := tdiv_neg_bounds (by omega : (0:Int) < k) hneg
    omega
  have hb := tdiv_bounds_nonneg (by omega : (0:Int) < k) hy
  constructor
  · rw [Util.lowpass_step]
    linarith
  · apply s_le_tdiv_of_bound hk hs
    rw [Util.lowpass_step]
    have hd1 : s + 1 ≤ Int.tdiv y k := by omega
    have hmul : (s + 1) * (k - 1) ≤ Int.tdiv y k * (k - 1) :=
      mul_le_mul_of_nonneg_right hd1 (by omega)
    nlinarith [hb.1]

theorem lowpass_iter_shift (k s y : Int) (n : Nat) :
    Util.lowpass_iter k s y (n + 1)
      = Util.lowpass_iter k s (Util.lowpass_step k y s) n := by
  induction n with
  | zero => rfl
  | succ n ih =>
    show Util.lowpass_step k (Util.lowpass_iter k s y (n + 1)) s
      = Util.lowpass_step k (Util.lowpass_iter k s (Util.lowpass_step k y s) n) s
    rw [ih]

theorem lowpass_iter_add (k s y : Int) (a b : Nat) :
    Util.lowpass_iter k s y (a + b)
      = Util.lowpass_iter k s (Util.lowpass_iter k s y a) b := by
  induction b with
  | zero => rfl
  | succ b ih =>
    show Util.lowpass_step k (Util.lowpass_iter k s y (a + b)) s = _
    rw [ih]
    rfl

theorem lowpass_stay {k s y : Int} (hfix : Int.tdiv y k = s) :
    ∀ n, Util.lowpass_iter k s y n = y := by
  intro n
  induction n with
  | zero => rfl
  | succ n ih =>
    show Util.lowpass_step k (Util.lowpass_iter k s y n) s = y
    rw [ih]
    exact lowpass_step_of_eq hfix

theorem lowpass_reach_below {k s : Int} (hk : 2 ≤ k) (hs : 0 ≤ s) :
    ∀ (fuel : Nat) (y : Int), Int.tdiv y k ≤ s →
      (k * s + k - 1 - y).toNat ≤ fuel →
      ∃ n, Int.tdiv (Util.lowpass_iter k s y n) k = s := by
  intro fuel
  induction fuel with
  | zero =>
    intro y hle hm
    have hub := le_bound_of_tdiv_le hk hs hle
    have h2 : k * s + k - 1 - y ≤ ((0 : Nat) : Int) := Int.toNat_le.mp hm
    have hy : y = k * s + k - 1 := by push_cast at h2; linarith
    refine ⟨0, ?_⟩
    show Int.tdiv y k = s
    have hks : 0 ≤ k * s := mul_nonneg (by omega) hs
    have hy0 : 0 ≤ y := by omega
    have hb := tdiv_bounds_nonneg (by omega : (0:Int) < k) hy0
    by_contra hne
    have hlt : Int.tdiv y k ≤ s - 1 := by
      rcases lt_or_eq_of_le hle with h | h
      · omega
      · exact absurd h hne
    have hmul : k * Int.tdiv y k ≤ k * (s - 1) :=
      mul_le_mul_of_nonneg_left hlt (by omega)
    nlinarith [hb.2]
  | succ fuel ih =>
    intro y hle hm
    rcases eq_or_lt_of_le hle with heq | hlt
    · exact ⟨0, heq⟩
    · have hstep := lowpass_step_below hk hs hlt
      have hub2 := le_bound_of_tdiv_le hk hs hstep.2
      have hm' : k * s + k - 1 - y ≤ ((fuel : Int) + 1) := by
        have := Int.toNat_le.mp hm
        push_cast at this
        linarith
      have hm2 : (k * s + k - 1 - Util.lowpass_step k y s).toNat ≤ fuel := by
        apply Int.toNat_le.mpr
        have h1 : y + 1 ≤ Util.lowpass_step k y s := hstep.1
        linarith
      obtain ⟨n, hn⟩ := ih (Util.lowpass_step k y s) hstep.2 hm2
      refine ⟨n + 1, ?_⟩
      rw [lowpass_iter_shift]
      exact hn

theorem lowpass_reach_above {k s : Int} (hk : 2 ≤ k) (hs : 0 ≤ s) :
    ∀ (fuel : Nat) (y : Int), s ≤ Int.tdiv y k →
      (y - k * s).toNat ≤ fuel →
      ∃ n, Int.tdiv (Util.lowpass_iter k s y n) k = s := by
  intro fuel
  induction fuel with
  | zero =>
    intro y hge hm
    have h2 : y - k * s ≤ ((0 : Nat) : Int) := Int.toNat_le.mp hm
    have hy : y ≤ k * s := by push_cast at h2; linarith
    refine ⟨0, ?_⟩
    show Int.tdiv y k = s
    by_contra hne
    have hlt : s + 1 ≤ Int.tdiv y k := by
      rcases lt_or_eq_of_le hge with h | h
      · omega
      · exact absurd h.symm hne
    have hy0 : 0 ≤ y := by
      by_contra hneg
      push_neg at hneg
      have hb := tdiv_neg_bounds (by omega : (0:Int) < k) hneg
      omega
    have hb := tdiv_bounds_nonneg (by omega : (0:Int) < k) hy0
    have hmul : k * (s + 1) ≤ k * Int.tdiv y k :=
      mul_le_mul_of_nonneg_left hlt (by omega)
    nlinarith [hb.1]
  | succ fuel ih =>
    intro y hge hm
    rcases eq_or_lt_of_le hge with heq | hlt
    · exact ⟨0, heq.symm⟩
    · have hstep := lowpass_step_above hk hs hlt
      have hy0 : 0 ≤ y := by
        by_contra hneg
        push_neg at hneg
        have hb := tdiv_neg_bounds (by omega : (0:Int) < k) hneg
        omega
      have hb := tdiv_bounds_nonneg (by omega : (0:Int) < k) hy0
      have hmul : k * (s + 1) ≤ k * Int.tdiv y k :=
        mul_le_mul_of_nonneg_left (by omega) (by omega)
      have hygt : k * s < y := by nlinarith [hb.1]
      have hm' : y - k * s ≤ ((fuel : Int) + 1) := by
        have := Int.toNat_le.mp hm
        push_cast at this
        linarith
      have hm2 : (Util.lowpass_step k y s - k * s).toNat ≤ fuel := by
        apply Int.toNat_le.mpr
        have h1 : Util.lowpass_step k y s + 1 ≤ y := hstep.1
        linarith
      obtain ⟨n, hn⟩ := ih (Util.lowpass_step k y s) hstep.2 hm2
      refine ⟨n + 1, ?_⟩
      rw [lowpass_iter_shift]
      exact hn

theorem lowpass_reach {k s : Int} (hk : 2 ≤ k) (hs : 0 ≤ s) (y : Int) :
    ∃ n, Int.tdiv (Util.lowpass_iter k s y n) k = s := by
  rcases le_or_lt (Int.tdiv y k) s with h | h
  · exact lowpass_reach_below hk hs ((k * s + k - 1 - y).toNat) y h le_rfl
  · exact lowpass_reach_above hk hs ((y - k * s).toNat) y (le_of_lt h) le_rfl

/-- C6: the lowpass filter computes y += s - y / k with truncating
integer division (the output being y / k), and under a constant
non-negative input s, from any starting accumulator, the output
eventually equals s to within an integer rounding error of 1 and stays
there (indeed it becomes exactly s). -/
theorem lowpass_constant_convergence (k s y0 : Int) (hk : 2 ≤ k) (hs : 0 ≤ s) :
    (∀ y : Int, Util.lowpass_step k y s = y + s - Int.tdiv y k) ∧
    ∃ N : Nat, ∀ n : Nat, N ≤ n →
      (Int.tdiv (Util.lowpass_iter k s y0 n) k - s).natAbs ≤ 1 := by
  refine ⟨fun y => rfl, ?_⟩
  obtain ⟨N, hN⟩ := lowpass_reach hk hs y0
  refine ⟨N, fun n hn => ?_⟩
  have hsplit : n = N + (n - N) := by omega
  rw [hsplit, lowpass_iter_add, lowpass_stay hN (n - N), hN]
  simp

/-- Witness for C6 at the firmware's first filter coefficient k = 8,
constant sample 3, starting accumulator 0. -/
theorem lowpass_constant_convergence_witness :
    (∀ y : Int, Util.lowpass_step 8 y 3 = y + 3 - Int.tdiv y 8) ∧
    ∃ N : Nat, ∀ n : Nat, N ≤ n →
      (Int.tdiv (Util.lowpass_iter 8 3 0 n) 8 - 3).natAbs ≤ 1 :=
  lowpass_constant_convergence 8 3 0 (by norm_num) (by norm_num)

end Nexus
